import Mathlib

/-!
Verification of the document-boundary identification engine of the
globalise-huygens/documents repository.

The engine (`identify_documents_for_inventory` in
`4_identify_documents_baseline.py`) consumes one inventory's ordered page
sequence and emits documents, each an ordered list of page links with
zero-based indices.  We embed the engine as a pure fold over the page list,
with the four pieces of running state the source keeps
(`current_document`, `empty_page_sequence`, `previous_page_had_signature`,
`page_index`) made explicit, plus the statistics counters it returns.
-/

/-- A page as the engine reads it: identity, the `signatures` text field
(`None`/empty means no signature) and the tri-state `is_blank` flag
(`None` is falsy in the source). -/
structure Page where
  id : String
  signatures : Option String
  is_blank : Option Bool
deriving DecidableEq, Repr

/-- Python truthiness of `page.is_blank`: only a stored `True` counts as
blank; `None` and `False` are falsy. -/
def pageIsBlank (p : Page) : Bool :=
  match p.is_blank with
  | none => false
  | some b => b

/-- Python truthiness of `page.signatures`: a non-`None`, non-empty string. -/
def pageHasSignature (p : Page) : Bool :=
  match p.signatures with
  | none => false
  | some s => !(s == "")

/-- The running state of the engine's single left-to-right pass.
`docsRev` holds the documents created so far, most recent first, each as a
reversed list of (page, link index) pairs; the head is `current_document`.
`isFirst` models the `i == first_content_idx` test of the source loop. -/
structure SegState where
  docsRev : List (List (Page × Nat))
  hasCurrent : Bool
  emptyRun : Bool
  prevSig : Bool
  pageIndex : Nat
  isFirst : Bool
  documentsCreated : Nat
  pagesProcessed : Nat
deriving Repr

def initState : SegState :=
  { docsRev := []
    hasCurrent := false
    emptyRun := false
    prevSig := false
    pageIndex := 0
    isFirst := true
    documentsCreated := 0
    pagesProcessed := 0 }

/-- The `start_new_document` decision of the source's if/elif chain. -/
def decideStart (st : SegState) (page : Page) : Bool :=
  if st.isFirst then true
  else if st.prevSig then !(pageIsBlank page)
  else if pageIsBlank page then false
  else if st.emptyRun && !(pageIsBlank page) then true
  else false

/-- The flag updates performed by the same if/elif chain. -/
def updateFlags (st : SegState) (page : Page) : SegState :=
  if st.isFirst then st
  else if st.prevSig then
    if !(pageIsBlank page) then { st with prevSig := false, emptyRun := false }
    else { st with emptyRun := false }
  else if pageIsBlank page then { st with emptyRun := true }
  else if st.emptyRun && !(pageIsBlank page) then { st with emptyRun := false }
  else { st with emptyRun := false }

/-- The document-creation / page-append phase of the loop body: a new
document opens only on a non-blank page, with the page linked at index 0;
otherwise a non-blank page is appended to the current document at
`page_index`.  Blank pages are never appended.  A signature on an appended
page sets `previous_page_had_signature`. -/
def appendPhase (startNew : Bool) (page : Page) (st : SegState) : SegState :=
  if startNew && !(pageIsBlank page) then
    { st with
      docsRev := [(page, 0)] :: st.docsRev
      hasCurrent := true
      documentsCreated := st.documentsCreated + 1
      pageIndex := 1
      pagesProcessed := st.pagesProcessed + 1
      prevSig := if pageHasSignature page then true else st.prevSig }
  else if st.hasCurrent && !(pageIsBlank page) then
    match st.docsRev with
    | [] => st
    | d :: ds =>
      { st with
        docsRev := ((page, st.pageIndex) :: d) :: ds
        pageIndex := st.pageIndex + 1
        pagesProcessed := st.pagesProcessed + 1
        prevSig := if pageHasSignature page then true else st.prevSig }
  else st

/-- One iteration of the source loop body. -/
def segStep (st : SegState) (page : Page) : SegState :=
  { appendPhase (decideStart st page) page (updateFlags st page) with isFirst := false }

/-- `first_content_idx`: index of the first page whose blank flag is falsy. -/
def findFirstContent : List Page → Option Nat
  | [] => none
  | p :: ps =>
      if !(pageIsBlank p) then some 0
      else (findFirstContent ps).map (fun j => j + 1)

/-- The whole engine run for one inventory: the emitted documents (each an
ordered list of (page, index) links, in emission order) together with the
`(documents_created, pages_processed)` counters the source returns. -/
def identify_documents_for_inventory (pages : List Page) :
    List (List (Page × Nat)) × Nat × Nat :=
  match findFirstContent pages with
  | none => ([], 0, 0)
  | some i =>
    let final := (pages.drop i).foldl segStep initState
    (final.docsRev.reverse.map List.reverse, final.documentsCreated,
      final.pagesProcessed)

/-- The emitted documents with their page-link indices. -/
def segmentLinks (pages : List Page) : List (List (Page × Nat)) :=
  (identify_documents_for_inventory pages).1

/-- The emitted documents as ordered page lists (the spec's `segment`;
named `segmentDocs` here because Mathlib already uses `segment`). -/
def segmentDocs (pages : List Page) : List (List Page) :=
  (segmentLinks pages).map (List.map Prod.fst)

/-! Test fixtures: concrete pages for the spec's scenarios. -/

def pBlank (s : String) : Page := { id := s, signatures := none, is_blank := some true }

def pContent (s : String) : Page := { id := s, signatures := none, is_blank := some false }

def pSig (s : String) : Page := { id := s, signatures := some "sig", is_blank := some false }

/-- C2: Scenario A — `[blank, blank, content1, content2(sig), content3]`
yields exactly two documents, `[content1, content2]` then `[content3]`:
the signature boundary on content2 is resolved by the next non-blank page. -/
theorem C2_scenarioA :
    segmentDocs [pBlank "b1", pBlank "b2", pContent "c1", pSig "c2", pContent "c3"]
      = [[pContent "c1", pSig "c2"], [pContent "c3"]] := by decide

/-- C3: Scenario B — `[content1(sig), blank, blank, content2]` yields exactly
two documents `[content1]` and `[content2]`: the blank run after a signature
is absorbed and no extra blank-run boundary is created. -/
theorem C3_scenarioB :
    segmentDocs [pSig "c1", pBlank "b1", pBlank "b2", pContent "c2"]
      = [[pSig "c1"], [pContent "c2"]] := by decide

/-- C4: Scenario C — `[content1, blank, content2, content3]` yields exactly
two documents `[content1]` and `[content2, content3]`: a blank run between
content pages opens a new document on the next non-blank page. -/
theorem C4_scenarioC :
    segmentDocs [pContent "c1", pBlank "b1", pContent "c2", pContent "c3"]
      = [[pContent "c1"], [pContent "c2", pContent "c3"]] := by decide

/-! ## Identification Method Registry (`create_identification_method`)

The source queries the method table for the fixed baseline name, returns the
existing row's id if found, and otherwise inserts one new row with a fresh
uuid.  We model the table as a list of rows queried front to back (the
`first()` of the query) with inserts appended at the back. -/

def baselineMethodName : String := "Baseline: Empty Pages & Signatures"

structure MethodRow where
  id : String
  name : String
deriving DecidableEq, Repr

/-- Find-or-create of the baseline method: `freshId` stands for the uuid the
source would generate on an insert. -/
def create_identification_method (freshId : String) (db : List MethodRow) :
    String × List MethodRow :=
  match db.find? (fun m => m.name == baselineMethodName) with
  | some m => (m.id, db)
  | none => (freshId, db ++ [{ id := freshId, name := baselineMethodName }])

lemma find_append_singleton (p : MethodRow → Bool) (db : List MethodRow)
    (r : MethodRow) (h : db.find? p = none) :
    (db ++ [r]).find? p = if p r then some r else none := by
  induction db with
  | nil => cases hpr : p r <;> simp [List.find?, hpr]
  | cons a l ih =>
      rw [List.find?_cons] at h
      rcases hpa : p a with _ | _
      · rw [List.cons_append, List.find?_cons, hpa]
        exact ih (by rwa [hpa] at h)
      · rw [hpa] at h; cases h

/-- C8: find-or-create is idempotent — a second call returns the identity the
first call returned and leaves the method table unchanged, so the operation
never inserts a second row for the name. -/
theorem C8_ensure_method_idempotent (db : List MethodRow) (f1 f2 : String) :
    (create_identification_method f2 (create_identification_method f1 db).2).1
        = (create_identification_method f1 db).1 ∧
      (create_identification_method f2 (create_identification_method f1 db).2).2
        = (create_identification_method f1 db).2 := by
  rcases h : db.find? (fun m => m.name == baselineMethodName) with _ | m
  · have h2 : ((db ++ [(⟨f1, baselineMethodName⟩ : MethodRow)]).find?
        (fun m => m.name == baselineMethodName))
        = some (⟨f1, baselineMethodName⟩ : MethodRow) := by
      rw [find_append_singleton _ _ _ h]; simp
    constructor <;> simp [create_identification_method, h, h2]
  · constructor <;> simp [create_identification_method, h]

/-! ## Empty and all-blank inventories -/

lemma findFirstContent_eq_none_of_all_blank (pages : List Page)
    (h : ∀ p ∈ pages, pageIsBlank p = true) : findFirstContent pages = none := by
  induction pages with
  | nil => rfl
  | cons p ps ih =>
      have hp : pageIsBlank p = true := h p (List.mem_cons_self p ps)
      have := ih (fun q hq => h q (List.mem_cons_of_mem p hq))
      simp [findFirstContent, hp, this]

/-- C7: an inventory whose pages are all blank (in particular an empty one)
yields zero documents and zero pages assigned, with no error. -/
theorem C7_all_blank_empty_result (pages : List Page)
    (h : ∀ p ∈ pages, pageIsBlank p = true) :
    identify_documents_for_inventory pages = ([], 0, 0) := by
  rw [identify_documents_for_inventory,
    findFirstContent_eq_none_of_all_blank pages h]

/-- Witness: C7 instantiated at a concrete blank-only inventory. -/
theorem C7_all_blank_empty_result_witness :
    (∀ p ∈ [pBlank "b1", pBlank "b2"], pageIsBlank p = true) ∧
      identify_documents_for_inventory [pBlank "b1", pBlank "b2"] = ([], 0, 0) :=
  ⟨by decide, C7_all_blank_empty_result [pBlank "b1", pBlank "b2"] (by decide)⟩

/-! ## Concatenation invariant: emitted pages are the non-blank input pages -/

/-- All pages linked so far, in document-emission order then index order. -/
def flatPagesRev (docsRev : List (List (Page × Nat))) : List Page :=
  (docsRev.reverse.map (fun d => d.reverse.map Prod.fst)).flatten

lemma flatPagesRev_push (p : Page) (k : Nat) (ds : List (List (Page × Nat))) :
    flatPagesRev ([(p, k)] :: ds) = flatPagesRev ds ++ [p] := by
  simp [flatPagesRev]

lemma flatPagesRev_extend (p : Page) (k : Nat) (d : List (Page × Nat))
    (ds : List (List (Page × Nat))) :
    flatPagesRev (((p, k) :: d) :: ds) = flatPagesRev (d :: ds) ++ [p] := by
  simp [flatPagesRev]

lemma flatPagesRev_nil_cons (ds : List (List (Page × Nat))) :
    flatPagesRev ([] :: ds) = flatPagesRev ds := by
  simp [flatPagesRev]

/-- One loop iteration from a mid-run state (a document is open, the first
page has been passed): the linked pages grow by the current page exactly when
it is non-blank, and the mid-run shape is preserved. -/
lemma segStep_invariant_flat (st : SegState) (p : Page)
    (hf : st.isFirst = false) (hc : st.hasCurrent = true)
    (d : List (Page × Nat)) (ds : List (List (Page × Nat)))
    (hd : st.docsRev = d :: ds) :
    (segStep st p).isFirst = false ∧ (segStep st p).hasCurrent = true ∧
      (segStep st p).docsRev ≠ [] ∧
      flatPagesRev (segStep st p).docsRev
        = flatPagesRev st.docsRev ++ (if pageIsBlank p then [] else [p]) := by
  cases hb : pageIsBlank p <;> cases hs : st.prevSig <;> cases he : st.emptyRun <;>
    simp [segStep, decideStart, updateFlags, appendPhase, hf, hc, hd, hb, hs, he,
      flatPagesRev_push, flatPagesRev_extend, flatPagesRev_nil_cons]

lemma foldl_segStep_flat (rest : List Page) :
    ∀ st : SegState, st.isFirst = false → st.hasCurrent = true → st.docsRev ≠ [] →
      flatPagesRev ((rest.foldl segStep st).docsRev)
        = flatPagesRev st.docsRev ++ rest.filter (fun q => !(pageIsBlank q)) := by
  induction rest with
  | nil => intro st _ _ _; simp
  | cons p rest ih =>
      intro st hf hc hd
      rcases hdr : st.docsRev with _ | ⟨d, ds⟩
      · exact absurd hdr hd
      obtain ⟨h1, h2, h3, h4⟩ := segStep_invariant_flat st p hf hc d ds hdr
      rw [List.foldl_cons, ih _ h1 h2 h3, h4, List.filter_cons]
      cases hb : pageIsBlank p <;> simp [hb, hdr, List.append_assoc]

lemma flatten_output (dr : List (List (Page × Nat))) :
    ((dr.reverse.map List.reverse).map (List.map Prod.fst)).flatten = flatPagesRev dr := by
  simp [flatPagesRev, List.map_map, Function.comp_def]

/-- The state after the very first visited page (which is non-blank): one
document containing that single page at index 0. -/
lemma segStep_init (p : Page) (hb : pageIsBlank p = false) :
    segStep initState p =
      { docsRev := [[(p, 0)]], hasCurrent := true, emptyRun := false,
        prevSig := pageHasSignature p, pageIndex := 1, isFirst := false,
        documentsCreated := 1, pagesProcessed := 1 } := by
  cases hsig : pageHasSignature p <;>
    simp [segStep, decideStart, updateFlags, appendPhase, initState, hb, hsig]

/-- Unfolding the engine on an inventory whose first page is non-blank. -/
lemma identify_cons_content (p : Page) (ps : List Page) (hb : pageIsBlank p = false) :
    identify_documents_for_inventory (p :: ps)
      = ((ps.foldl segStep (segStep initState p)).docsRev.reverse.map List.reverse,
         (ps.foldl segStep (segStep initState p)).documentsCreated,
         (ps.foldl segStep (segStep initState p)).pagesProcessed) := by
  have hfc : findFirstContent (p :: ps) = some 0 := by
    rw [findFirstContent, hb]; rfl
  simp [identify_documents_for_inventory, hfc]

/-- Skipping a leading blank page does not change the engine's output. -/
lemma identify_cons_blank (p : Page) (ps : List Page) (hb : pageIsBlank p = true) :
    identify_documents_for_inventory (p :: ps) = identify_documents_for_inventory ps := by
  rw [identify_documents_for_inventory, identify_documents_for_inventory]
  rw [findFirstContent, hb]
  cases hfc : findFirstContent ps with
  | none => simp [hfc]
  | some j => simp [hfc, List.drop_succ_cons]

/-- Core concatenation lemma: the pages of all emitted documents, in emission
order then index order, are exactly the non-blank input pages in order. -/
lemma segmentDocs_flatten (pages : List Page) :
    (segmentDocs pages).flatten = pages.filter (fun q => !(pageIsBlank q)) := by
  induction pages with
  | nil => rfl
  | cons p ps ih =>
      cases hb : pageIsBlank p
      · rw [segmentDocs, segmentLinks, identify_cons_content p ps hb]
        rw [show ((ps.foldl segStep (segStep initState p)).docsRev.reverse.map List.reverse,
            (ps.foldl segStep (segStep initState p)).documentsCreated,
            (ps.foldl segStep (segStep initState p)).pagesProcessed).1
          = (ps.foldl segStep (segStep initState p)).docsRev.reverse.map List.reverse from rfl]
        rw [flatten_output, segStep_init p hb]
        rw [foldl_segStep_flat ps _ rfl rfl (by simp)]
        rw [List.filter_cons]
        simp [hb, flatPagesRev]
      · rw [segmentDocs, segmentLinks, identify_cons_blank p ps hb, List.filter_cons]
        rw [← segmentLinks, ← segmentDocs, ih]
        simp [hb]

/-- C1: concatenating the page lists of all emitted documents, in emission
order then index order, yields exactly the input sequence with blank pages
removed — in particular an order-preserving subsequence of the input that
starts at the first non-blank input page. -/
theorem C1_concatenation_subsequence (pages : List Page) :
    (segmentDocs pages).flatten = pages.filter (fun q => !(pageIsBlank q)) ∧
      (segmentDocs pages).flatten.Sublist pages :=
  ⟨segmentDocs_flatten pages,
    (segmentDocs_flatten pages).symm ▸ List.filter_sublist pages⟩

/-- C5: no emitted document contains a page whose blank flag is truthy. -/
theorem C5_no_blank_in_documents (pages : List Page) (doc : List Page) (p : Page)
    (hdoc : doc ∈ segmentDocs pages) (hp : p ∈ doc) : pageIsBlank p = false := by
  have hmem : p ∈ (segmentDocs pages).flatten := List.mem_flatten.mpr ⟨doc, hdoc, hp⟩
  rw [segmentDocs_flatten] at hmem
  simpa using List.of_mem_filter hmem

/-- Witness: C5 applied to a concrete run with a blank page in the input. -/
theorem C5_no_blank_in_documents_witness :
    [pContent "c1"] ∈ segmentDocs [pBlank "b1", pContent "c1"] ∧
      pContent "c1" ∈ [pContent "c1"] ∧
      pageIsBlank (pContent "c1") = false :=
  ⟨by decide, by decide,
    C5_no_blank_in_documents [pBlank "b1", pContent "c1"] [pContent "c1"]
      (pContent "c1") (by decide) (by decide)⟩

/-! ## Index-contiguity and non-emptiness invariants -/

/-- Shape of one in-progress (reversed) document: link indices count down
from `length - 1` to `0`, and the first appended page (the last element of
the reversed list, at index 0) is non-blank. -/
def DocShapeInv (d : List (Page × Nat)) : Prop :=
  d.map Prod.snd = (List.range d.length).reverse ∧
    ∃ t q, d = t ++ [(q, 0)] ∧ pageIsBlank q = false

/-- State invariant: every created document is well shaped, and `page_index`
is the length of the current (head) document. -/
def StInv (st : SegState) : Prop :=
  (∀ d ∈ st.docsRev, DocShapeInv d) ∧
    (∀ d ds, st.docsRev = d :: ds → st.pageIndex = d.length)

lemma updateFlags_docsRev (st : SegState) (p : Page) :
    (updateFlags st p).docsRev = st.docsRev := by
  cases hf : st.isFirst <;> cases hs : st.prevSig <;> cases hb : pageIsBlank p <;>
    cases he : st.emptyRun <;> simp [updateFlags, hf, hs, hb, he]

lemma updateFlags_pageIndex (st : SegState) (p : Page) :
    (updateFlags st p).pageIndex = st.pageIndex := by
  cases hf : st.isFirst <;> cases hs : st.prevSig <;> cases hb : pageIsBlank p <;>
    cases he : st.emptyRun <;> simp [updateFlags, hf, hs, hb, he]

lemma StInv_of_fields {st st2 : SegState} (hd : st2.docsRev = st.docsRev)
    (hp : st2.pageIndex = st.pageIndex) (h : StInv st) : StInv st2 := by
  unfold StInv at *
  rw [hd, hp]
  exact h

lemma range_succ_reverse (n : Nat) :
    (List.range (n + 1)).reverse = n :: (List.range n).reverse := by
  rw [List.range_succ]
  simp

lemma appendPhase_StInv (b : Bool) (p : Page) (st : SegState) (h : StInv st) :
    StInv (appendPhase b p st) := by
  by_cases h1 : (b && !(pageIsBlank p)) = true
  · rw [appendPhase, if_pos h1]
    have hnb : pageIsBlank p = false := by
      rcases Bool.and_eq_true_iff.mp h1 with ⟨_, h2⟩
      simpa using h2
    constructor
    · intro d hd
      rcases List.mem_cons.mp hd with hd | hd
      · subst hd
        exact ⟨rfl, [], p, rfl, hnb⟩
      · exact h.1 d hd
    · intro d ds hds
      injection hds with hhead htail
      subst hhead
      rfl
  · rw [appendPhase, if_neg h1]
    by_cases h2 : (st.hasCurrent && !(pageIsBlank p)) = true
    · rw [if_pos h2]
      rcases hdr : st.docsRev with _ | ⟨d, ds⟩
      · exact StInv_of_fields rfl rfl h
      · obtain ⟨hsnd, t, q, hshape, hq⟩ := h.1 d (hdr ▸ List.mem_cons_self d ds)
        have hpi : st.pageIndex = d.length := h.2 d ds hdr
        constructor
        · intro d2 hd2
          rcases List.mem_cons.mp hd2 with hd2 | hd2
          · subst hd2
            refine ⟨?_, (p, st.pageIndex) :: t, q, by rw [hshape]; rfl, hq⟩
            simp only [List.map_cons, List.length_cons, hsnd, hpi,
              range_succ_reverse]
          · exact h.1 d2 (hdr ▸ List.mem_cons_of_mem d hd2)
        · intro d2 ds2 hds2
          injection hds2 with hhead htail
          subst hhead
          simp [hpi]
    · rw [if_neg h2]
      exact h

lemma segStep_StInv (st : SegState) (p : Page) (h : StInv st) :
    StInv (segStep st p) := by
  rw [segStep]
  refine StInv_of_fields rfl rfl (appendPhase_StInv _ p _ ?_)
  exact StInv_of_fields (updateFlags_docsRev st p) (updateFlags_pageIndex st p) h

lemma StInv_initState : StInv initState := by
  constructor
  · intro d hd
    simp [initState] at hd
  · intro d ds hds
    simp [initState] at hds

lemma foldl_StInv (rest : List Page) :
    ∀ st : SegState, StInv st → StInv (rest.foldl segStep st) := by
  induction rest with
  | nil => intro st h; exact h
  | cons p rest ih => intro st h; exact ih _ (segStep_StInv st p h)

/-- Every emitted document is the reversal of a document satisfying the
in-progress shape invariant. -/
lemma segmentLinks_shape (pages : List Page) (doc : List (Page × Nat))
    (h : doc ∈ segmentLinks pages) :
    ∃ d, DocShapeInv d ∧ doc = d.reverse := by
  rw [segmentLinks, identify_documents_for_inventory] at h
  cases hfc : findFirstContent pages with
  | none => rw [hfc] at h; simp at h
  | some i =>
      rw [hfc] at h
      simp only [List.mem_map, List.mem_reverse] at h
      obtain ⟨d, hd, hrev⟩ := h
      exact ⟨d, (foldl_StInv (pages.drop i) initState StInv_initState).1 d hd,
        hrev.symm⟩

/-- C6: every emitted document's link indices are exactly `0, 1, ..., n-1`
in list (= append) order. -/
theorem C6_indices_contiguous (pages : List Page) (doc : List (Page × Nat))
    (h : doc ∈ segmentLinks pages) :
    doc.map Prod.snd = List.range doc.length := by
  obtain ⟨d, ⟨hsnd, _⟩, rfl⟩ := segmentLinks_shape pages doc h
  rw [List.map_reverse, hsnd, List.reverse_reverse, List.length_reverse]

/-- Witness: C6 applied to a concrete two-page document. -/
theorem C6_indices_contiguous_witness :
    [(pContent "c1", 0), (pContent "c2", 1)]
        ∈ segmentLinks [pContent "c1", pContent "c2"] ∧
      [(pContent "c1", 0), (pContent "c2", 1)].map Prod.snd
        = List.range [(pContent "c1", 0), (pContent "c2", 1)].length :=
  ⟨by decide,
    C6_indices_contiguous [pContent "c1", pContent "c2"]
      [(pContent "c1", 0), (pContent "c2", 1)] (by decide)⟩

/-- C10: every emitted document starts with a non-blank page linked at
index 0 — in particular no emitted document is empty. -/
theorem C10_documents_nonempty (pages : List Page) (doc : List (Page × Nat))
    (h : doc ∈ segmentLinks pages) :
    ∃ q rest, doc = (q, 0) :: rest ∧ pageIsBlank q = false := by
  obtain ⟨d, ⟨_, t, q, hshape, hq⟩, rfl⟩ := segmentLinks_shape pages doc h
  refine ⟨q, t.reverse, ?_, hq⟩
  rw [hshape]
  simp

/-- Witness: C10 applied to a concrete run. -/
theorem C10_documents_nonempty_witness :
    [(pSig "c1", 0)] ∈ segmentLinks [pSig "c1", pContent "c2"] ∧
      ∃ q rest, ([(pSig "c1", 0)] : List (Page × Nat)) = (q, 0) :: rest ∧
        pageIsBlank q = false :=
  ⟨by decide,
    C10_documents_nonempty [pSig "c1", pContent "c2"] [(pSig "c1", 0)] (by decide)⟩

/-! ## Tri-state blank flag: `None` behaves exactly like `False` -/

/-- Replace an unknown (`None`) blank flag by an explicit `False`, leaving
known flags untouched. -/
def defaultBlankToFalse (p : Page) : Page :=
  { p with is_blank := some (p.is_blank.getD false) }

lemma pageIsBlank_default (p : Page) :
    pageIsBlank (defaultBlankToFalse p) = pageIsBlank p := by
  rcases p with ⟨i, s, hb⟩
  cases hb <;> rfl

lemma pageHasSignature_default (p : Page) :
    pageHasSignature (defaultBlankToFalse p) = pageHasSignature p := rfl

/-- Normalisation lifted to page links. -/
def normLink (x : Page × Nat) : Page × Nat := (defaultBlankToFalse x.1, x.2)

/-- Normalisation lifted to engine states. -/
def normState (st : SegState) : SegState :=
  { st with docsRev := st.docsRev.map (List.map normLink) }

lemma decideStart_norm (st : SegState) (p : Page) :
    decideStart (normState st) (defaultBlankToFalse p) = decideStart st p := by
  simp [decideStart, normState, pageIsBlank_default]

lemma updateFlags_norm (st : SegState) (p : Page) :
    updateFlags (normState st) (defaultBlankToFalse p)
      = normState (updateFlags st p) := by
  cases hf : st.isFirst <;> cases hs : st.prevSig <;> cases hb : pageIsBlank p <;>
    cases he : st.emptyRun <;>
      simp [updateFlags, normState, pageIsBlank_default, hf, hs, hb, he]

lemma appendPhase_norm (b : Bool) (p : Page) (st : SegState) :
    appendPhase b (defaultBlankToFalse p) (normState st)
      = normState (appendPhase b p st) := by
  rcases hdr : st.docsRev with _ | ⟨d, ds⟩ <;>
    cases hb : pageIsBlank p <;> cases hbb : b <;> cases hc : st.hasCurrent <;>
      cases hsig : pageHasSignature p <;>
        simp [appendPhase, normState, normLink, pageIsBlank_default,
          pageHasSignature_default, hdr, hb, hbb, hc, hsig]

lemma segStep_norm (st : SegState) (p : Page) :
    segStep (normState st) (defaultBlankToFalse p) = normState (segStep st p) := by
  rw [segStep, segStep, decideStart_norm, updateFlags_norm, appendPhase_norm]
  rfl

lemma foldl_segStep_norm (rest : List Page) :
    ∀ st : SegState,
      (rest.map defaultBlankToFalse).foldl segStep (normState st)
        = normState (rest.foldl segStep st) := by
  induction rest with
  | nil => intro st; rfl
  | cons p rest ih =>
      intro st
      rw [List.map_cons, List.foldl_cons, List.foldl_cons, segStep_norm, ih]

lemma findFirstContent_norm (pages : List Page) :
    findFirstContent (pages.map defaultBlankToFalse) = findFirstContent pages := by
  induction pages with
  | nil => rfl
  | cons p ps ih => simp [findFirstContent, pageIsBlank_default, ih]

lemma normState_initState : normState initState = initState := rfl

/-- C9: a page with an unknown (`None`) blank flag is treated exactly as a
page whose blank flag is `False`: normalising every flag commutes with the
engine, so the emitted documents, their page links and indices, and both
counters are unchanged (the pages inside the output are themselves the
normalised pages, and nothing else changes). -/
theorem C9_unknown_blank_as_false (pages : List Page) :
    identify_documents_for_inventory (pages.map defaultBlankToFalse)
      = ((segmentLinks pages).map (List.map normLink),
         (identify_documents_for_inventory pages).2.1,
         (identify_documents_for_inventory pages).2.2) := by
  cases hfc : findFirstContent pages with
  | none =>
      have hn : findFirstContent (pages.map defaultBlankToFalse) = none := by
        rw [findFirstContent_norm, hfc]
      simp [identify_documents_for_inventory, segmentLinks, hfc, hn]
  | some i =>
      have hn : findFirstContent (pages.map defaultBlankToFalse) = some i := by
        rw [findFirstContent_norm, hfc]
      have hdrop : (pages.map defaultBlankToFalse).drop i
          = (pages.drop i).map defaultBlankToFalse := (List.map_drop _ _ _).symm
      have hfold : ((pages.drop i).map defaultBlankToFalse).foldl segStep initState
          = normState ((pages.drop i).foldl segStep initState) := by
        rw [← normState_initState, foldl_segStep_norm, normState_initState]
      simp only [identify_documents_for_inventory, segmentLinks, hfc, hn, hdrop,
        hfold, normState]
      simp [Prod.ext_iff, List.map_reverse, List.map_map]
